import Mathlib

/-!
Verification of the RocksDB advanced cache interface
(`include/rocksdb/advanced_cache.h`): a shallow embedding of the
`Cache` interface, its default (non-overridden) virtual method bodies,
`CacheItemHelper` with its construction-time assertions, the
`CacheWrapper` forwarding decorator, and a spec-modelled concrete
cache core for the capacity/charge accounting contract.
-/

namespace RocksDB

/-- Eviction priority hint for a cache entry
(`Cache::Priority`, advanced_cache.h line 65). -/
inductive Priority where
  | HIGH
  | LOW
  | BOTTOM
deriving DecidableEq, Repr

/-- Classification of a cache entry for monitoring purposes.
Declared in `rocksdb/cache.h` (not under src/); only the distinct-tag
aspect of the enum matters for this interface, so a representative
subset of the roles is modelled, including `kMisc` which the source
uses explicitly. -/
inductive CacheEntryRole where
  | kDataBlock
  | kFilterBlock
  | kIndexBlock
  | kBlobValue
  | kMisc
  | kOther
deriving DecidableEq, Repr

/-- Operation status (`rocksdb::Status`, from `rocksdb/status.h`).
Only the outcome codes the cache interface mentions are modelled:
`ok`, `memoryLimit` (the capacity error `Status::MemoryLimit`),
`notFound`, `invalidArgument`. -/
inductive Status where
  | ok
  | memoryLimit
  | notFound
  | invalidArgument
deriving DecidableEq, Repr

/-- A cache key: an arbitrary byte string (`Slice`). -/
abbrev Key : Type := List Nat

/-- `Cache::ObjectPtr` (a `void*`): modelled as an optional object
identity, `none` standing for `nullptr`. -/
abbrev ObjectPtr : Type := Option Nat

/-- An opaque handle to a cache entry (`Cache::Handle*`), modelled as a
numeric identity. -/
abbrev HandleId : Type := Nat

/-- A C-style callback function pointer, modelled by its identity;
`none` stands for `nullptr`. The cache code only ever stores these
pointers, compares them with `nullptr` and with each other. -/
abbrev FunPtr : Type := Option Nat

/-- `Cache::CacheItemHelper` (advanced_cache.h lines 124-173): deletion
callback, the three secondary-cache callbacks (size, save-to, create),
a role, and the `without_secondary_compat` pointer to an equivalent
helper without secondary-cache support. The pointer may refer to the
helper itself (as the non-secondary constructor passes `this`); this
self-reference is encoded as `none` in the `wsc` argument, while
`some h` encodes a pointer to another helper `h`. -/
inductive CacheItemHelper where
  | mk (del_cb : FunPtr) (size_cb : FunPtr) (saveto_cb : FunPtr)
       (create_cb : FunPtr) (role : CacheEntryRole)
       (wsc : Option CacheItemHelper) : CacheItemHelper

namespace CacheItemHelper

/-- Field `del_cb`: function for deleting an object on its removal
from the cache. -/
def del_cb : CacheItemHelper → FunPtr
  | .mk d _ _ _ _ _ => d

/-- Field `size_cb`: size of the persistable data. -/
def size_cb : CacheItemHelper → FunPtr
  | .mk _ s _ _ _ _ => s

/-- Field `saveto_cb`: saves persistable data into a buffer. -/
def saveto_cb : CacheItemHelper → FunPtr
  | .mk _ _ s _ _ _ => s

/-- Field `create_cb`: constructs an object from saved data. -/
def create_cb : CacheItemHelper → FunPtr
  | .mk _ _ _ c _ _ => c

/-- Field `role`: classification of the entry. -/
def role : CacheItemHelper → CacheEntryRole
  | .mk _ _ _ _ r _ => r

/-- The `without_secondary_compat` pointer, dereferenced: when the
stored pointer is the self-reference (`this`), the helper itself is
returned. -/
def withoutSecondaryCompat (h : CacheItemHelper) : CacheItemHelper :=
  match h with
  | .mk _ _ _ _ _ w => w.getD h

/-- `CacheItemHelper::IsSecondaryCacheCompatible` (line 170):
`return size_cb != nullptr;`. -/
def IsSecondaryCacheCompatible (h : CacheItemHelper) : Bool :=
  h.size_cb.isSome

/-- The constructor for helpers without secondary-cache support
(line 146): `CacheItemHelper(_role, _del_cb = nullptr)` delegates to
the full constructor with `nullptr, nullptr, nullptr, this`. -/
def forRoleDel (r : CacheEntryRole) (d : FunPtr) : CacheItemHelper :=
  .mk d none none none r none

/-- The default constructor (line 143):
`CacheItemHelper() : CacheItemHelper(CacheEntryRole::kMisc) {}`. -/
def defaultCtor : CacheItemHelper :=
  forRoleDel CacheEntryRole.kMisc none

/-- The constructor for helpers with secondary-cache support
(lines 150-159), with an explicit (distinct) `without_secondary_compat`
helper. -/
def withSecondary (r : CacheEntryRole) (d s sv c : FunPtr)
    (w : CacheItemHelper) : CacheItemHelper :=
  .mk d s sv c r (some w)

/-- The assertions executed in the body of the delegated constructor
(lines 160-168), expressed on the constructed helper (the constructor
arguments become exactly the helper's fields, and
`without_secondary_compat` fields are read through the stored pointer,
which for the delegating non-secondary constructor is `this`):
either all three secondary callbacks are null or all are non-null,
and `without_secondary_compat` names an equivalent helper (same role,
same deleter) without secondary support. -/
def ctorAssertsHold (h : CacheItemHelper) : Prop :=
  (h.size_cb.isSome = h.saveto_cb.isSome) ∧
  (h.size_cb.isSome = h.create_cb.isSome) ∧
  h.role = h.withoutSecondaryCompat.role ∧
  h.del_cb = h.withoutSecondaryCompat.del_cb ∧
  h.withoutSecondaryCompat.IsSecondaryCacheCompatible = false

/-- The construction-time invariant on the three secondary-cache
callbacks guaranteed by the constructor assertions (lines 160-163):
`size_cb`, `saveto_cb` and `create_cb` are all null or all non-null. -/
def secondaryCallbacksConsistent (h : CacheItemHelper) : Prop :=
  (h.size_cb.isSome = h.saveto_cb.isSome) ∧
  (h.size_cb.isSome = h.create_cb.isSome)

instance (h : CacheItemHelper) : Decidable h.secondaryCallbacksConsistent := by
  unfold secondaryCallbacksConsistent
  infer_instance

end CacheItemHelper

/-- Modelled from the spec: `kNoopCacheItemHelper` is only declared in
this header (line 535, `extern const Cache::CacheItemHelper
kNoopCacheItemHelper;`); its defining translation unit is not under
src/. The spec describes it as a trivial helper "no deleter for the
object, no secondary cache", i.e. the default-constructed helper. -/
def kNoopCacheItemHelper : CacheItemHelper :=
  CacheItemHelper.defaultCtor

/-- `SIZE_MAX` for a 64-bit `size_t`, the "not supported" sentinel of
`Cache::GetOccupancyCount` (line 357). -/
def SIZE_MAX : Nat := 2 ^ 64 - 1

/-- Default body of `Cache::GetOccupancyCount` (line 357):
`return SIZE_MAX;`. The state of the cache is an arbitrary type `σ`;
the default ignores it. -/
def cacheDefaultGetOccupancyCount {σ : Type} (_s : σ) : Nat :=
  SIZE_MAX

/-- Default body of `Cache::GetTableAddressCount` (line 362):
`return 0;`. -/
def cacheDefaultGetTableAddressCount {σ : Type} (_s : σ) : Nat :=
  0

/-- Default body of `Cache::DisownData` (line 381): a no-op on the
cache state. -/
def cacheDefaultDisownData {σ : Type} (s : σ) : σ :=
  s

/-- Default body of `Cache::GetPrintableOptions` (line 408):
`return "";`. -/
def cacheDefaultGetPrintableOptions {σ : Type} (_s : σ) : String :=
  ""

/-- Default body of the three-argument
`Cache::Release(handle, useful, erase_if_last_ref)` (lines 427-430):
`return Release(handle, erase_if_last_ref);`, a virtual call that
dispatches to the object's own two-argument `Release`, passed here as
the function argument `release2`. The `useful` flag is ignored. -/
def cacheDefaultReleaseWithUseful {σ : Type}
    (release2 : σ → HandleId → Bool → Bool × σ)
    (s : σ) (h : HandleId) (_useful : Bool) (erase_if_last_ref : Bool) :
    Bool × σ :=
  release2 s h erase_if_last_ref

/-- Default body of `Cache::IsReady` (line 436): `return true;`. -/
def cacheDefaultIsReady {σ : Type} (_s : σ) (_h : HandleId) : Bool :=
  true

/-- Default body of `Cache::Wait` (line 445): `{}`, a no-op on the
cache state. -/
def cacheDefaultWait {σ : Type} (s : σ) (_h : HandleId) : σ :=
  s

/-- Default body of `Cache::WaitAll` (line 450): `{}`, a no-op on the
cache state. -/
def cacheDefaultWaitAll {σ : Type} (s : σ) (_hs : List HandleId) : σ :=
  s

/-- The virtual interface of `Cache` (advanced_cache.h lines 41-454),
as a table of operations over an implementation-chosen state type `σ`.
Mutating operations are state transformers; operations with results
return them alongside the new state. `ApplyToAllEntries` is modelled
by the sequence of callback invocations it performs, given the
`average_entries_per_lock` option. -/
structure CacheImpl (σ : Type) where
  insert : σ → Key → ObjectPtr → CacheItemHelper → Nat → Bool → Priority →
    Status × Option HandleId × σ
  lookup : σ → Key → Option CacheItemHelper → Option Nat → Priority →
    Bool → Option Nat → Option HandleId × σ
  ref : σ → HandleId → Bool × σ
  release : σ → HandleId → Bool → Bool × σ
  value : σ → HandleId → ObjectPtr
  erase : σ → Key → σ
  newId : σ → Nat × σ
  setCapacity : σ → Nat → σ
  setStrictCapacityLimit : σ → Bool → σ
  hasStrictCapacityLimit : σ → Bool
  getCapacity : σ → Nat
  getUsage : σ → Nat
  getUsageOfHandle : σ → HandleId → Nat
  getPinnedUsage : σ → Nat
  getCharge : σ → HandleId → Nat
  getCacheItemHelper : σ → HandleId → Option CacheItemHelper
  applyToAllEntries : σ → Nat → List (Key × ObjectPtr × Nat × CacheItemHelper)
  eraseUnRefEntries : σ → σ
  getOccupancyCount : σ → Nat
  getTableAddressCount : σ → Nat
  disownData : σ → σ
  getPrintableOptions : σ → String
  releaseWithUseful : σ → HandleId → Bool → Bool → Bool × σ
  isReady : σ → HandleId → Bool
  wait : σ → HandleId → σ
  waitAll : σ → List HandleId → σ

/-- `CacheWrapper` (advanced_cache.h lines 458-531) over a target
cache. The wrapper holds only the target, so its state is the target's
state. The methods `CacheWrapper` overrides forward to the target; the
virtual methods it does NOT override — the three-argument `Release`,
`IsReady`, `Wait`, `WaitAll`, `GetOccupancyCount`,
`GetTableAddressCount`, `DisownData`, `GetPrintableOptions` — execute
the base-class `Cache` defaults. The base default of the
three-argument `Release` calls the virtual two-argument `Release`,
which dispatches to the wrapper's override and hence reaches
`target.release`; the other defaults never consult the target. -/
def wrapCache {σ : Type} (target : CacheImpl σ) : CacheImpl σ where
  insert := target.insert
  lookup := target.lookup
  ref := target.ref
  release := target.release
  value := target.value
  erase := target.erase
  newId := target.newId
  setCapacity := target.setCapacity
  setStrictCapacityLimit := target.setStrictCapacityLimit
  hasStrictCapacityLimit := target.hasStrictCapacityLimit
  getCapacity := target.getCapacity
  getUsage := target.getUsage
  getUsageOfHandle := target.getUsageOfHandle
  getPinnedUsage := target.getPinnedUsage
  getCharge := target.getCharge
  getCacheItemHelper := target.getCacheItemHelper
  applyToAllEntries := target.applyToAllEntries
  eraseUnRefEntries := target.eraseUnRefEntries
  getOccupancyCount := cacheDefaultGetOccupancyCount
  getTableAddressCount := cacheDefaultGetTableAddressCount
  disownData := cacheDefaultDisownData
  getPrintableOptions := cacheDefaultGetPrintableOptions
  releaseWithUseful := cacheDefaultReleaseWithUseful target.release
  isReady := cacheDefaultIsReady
  wait := cacheDefaultWait
  waitAll := cacheDefaultWaitAll

/-- A concrete legal `Cache` implementation used to exercise the
wrapper: its state is a counter, it tracks occupancy (42 entries, 256
table addresses), counts `Wait`/`WaitAll` calls in its state, reports
handles as not ready, uses the `useful` flag of the three-argument
`Release` in its result, and clears its state on `DisownData`. Every
override here is permitted by the virtual interface. -/
def occupancyTrackingTarget : CacheImpl Nat where
  insert := fun s _ _ _ _ _ _ => (Status.ok, none, s)
  lookup := fun s _ _ _ _ _ _ => (none, s)
  ref := fun s _ => (false, s)
  release := fun s _ _ => (false, s)
  value := fun _ _ => none
  erase := fun s _ => s
  newId := fun s => (s, s + 1)
  setCapacity := fun s _ => s
  setStrictCapacityLimit := fun s _ => s
  hasStrictCapacityLimit := fun _ => false
  getCapacity := fun _ => 100
  getUsage := fun _ => 0
  getUsageOfHandle := fun _ _ => 0
  getPinnedUsage := fun _ => 0
  getCharge := fun _ _ => 0
  getCacheItemHelper := fun _ _ => none
  applyToAllEntries := fun _ _ => []
  eraseUnRefEntries := fun s => s
  getOccupancyCount := fun _ => 42
  getTableAddressCount := fun _ => 256
  disownData := fun _ => 0
  getPrintableOptions := fun _ => "occupancy tracking"
  releaseWithUseful := fun s _ useful _ => (useful, s)
  isReady := fun _ _ => false
  wait := fun s _ => s + 1
  waitAll := fun s hs => s + hs.length

/-- Modelled from the spec: the lifecycle states of a handle returned
by `Lookup` (spec section 4.2; the code realizing pending handles
lives in the secondary-cache implementation, which is not under src/).
`present` and `failed` are terminal; the two pending states come only
from a delegated lookup. -/
inductive HandleState where
  | present
  | failed
  | pendingReady
  | pendingNotReady
deriving DecidableEq, Repr

/-- Modelled from the spec: `IsReady(handle)` as a function of the
handle's lifecycle state — "non-blocking poll; true for `Present`,
`Failed`, `PendingReady`; false only for `PendingNotReady`" (spec
section 4.2). The implementing code is not under src/; only the
default body (line 436) is. -/
def isReadyOfState : HandleState → Bool
  | HandleState.pendingNotReady => false
  | _ => true

/-- Modelled from the spec: the cache's internal record for one entry
(spec section 3, "Entry"): key, opaque object pointer, charge,
reference count, priority, governing helper. `inTable` distinguishes
entries still bound in the key table from entries already erased or
replaced but kept alive by outstanding references (deferred
destruction). The concrete table implementation (e.g. the LRU cache)
is not under src/. -/
structure Entry where
  key : Key
  obj : ObjectPtr
  charge : Nat
  refs : Nat
  inTable : Bool
  prio : Priority
  helper : CacheItemHelper

/-- Modelled from the spec: the state of the concrete cache core
(spec sections 3-4): the entry table (handle identity to entry), a
fresh-identity counter, configured capacity, the strict capacity
limit flag, the maintained usage and pinned-usage accounting counters,
and a log of the object pointers passed to destruction so far. -/
structure CacheState where
  entries : List (Nat × Entry)
  nextId : Nat
  capacity : Nat
  strict : Bool
  usage : Nat
  pinned : Nat
  destroyedLog : List ObjectPtr

/-- Sum of the charges of all entries held by the cache. -/
def sumCharges (es : List (Nat × Entry)) : Nat :=
  (es.map (fun p => p.2.charge)).sum

/-- Sum of the charges of the entries with a nonzero reference
count. -/
def pinnedCharges (es : List (Nat × Entry)) : Nat :=
  (es.map (fun p => if 0 < p.2.refs then p.2.charge else 0)).sum

/-- Modelled from the spec: select one eviction victim — an entry with
zero references still in the table, preferring the lowest priority
("evicts existing unreferenced entries, lowest priority first", spec
section 4.1) — returning the victim and the table without it. Lower
rank is evicted first: `BOTTOM` is most disposable. -/
def evictableRank : Priority → Nat
  | Priority.BOTTOM => 0
  | Priority.LOW => 1
  | Priority.HIGH => 2

/-- Remove one eviction victim (unreferenced, in table, of minimal
`evictableRank`, earliest on ties) from the entry list; `none` when no
entry is evictable. -/
def evictOne : List (Nat × Entry) → Option (Entry × List (Nat × Entry))
  | [] => none
  | p :: rest =>
    if p.2.refs = 0 ∧ p.2.inTable = true then
      match evictOne rest with
      | some (q, rest') =>
        if evictableRank q.prio < evictableRank p.2.prio then
          some (q, p :: rest')
        else
          some (p.2, rest)
      | none => some (p.2, rest)
    else
      match evictOne rest with
      | some (q, rest') => some (q, p :: rest')
      | none => none

/-- Modelled from the spec: the eviction loop of `Insert` — with a new
charge of `extra` pending, evict victims "until usage is at or below
capacity or no more evictable entries remain" (spec section 4.1). Each
destroyed victim's object is logged and its charge released. `fuel`
bounds the number of iterations; the entry-list length always
suffices. -/
def evictLoop : Nat → Nat → CacheState → CacheState
  | 0, _, s => s
  | fuel + 1, extra, s =>
    if s.usage + extra ≤ s.capacity then s
    else
      match evictOne s.entries with
      | none => s
      | some (e, es') =>
        evictLoop fuel extra
          { s with
            entries := es'
            usage := s.usage - e.charge
            destroyedLog := s.destroyedLog ++ [e.obj] }

/-- Remove or detach the first in-table entry bound to key `k`
(used by `Erase` and by `Insert` replacing an existing binding, spec
sections 4.1 and 3): the binding is removed from the table
immediately; the entry itself is destroyed only if its reference count
is zero, otherwise it is kept, detached, until its last release.
Returns the new list and the destroyed entry, if any. -/
def detachFirst (k : Key) :
    List (Nat × Entry) → List (Nat × Entry) × Option Entry
  | [] => ([], none)
  | (i, e) :: rest =>
    if e.inTable = true ∧ e.key = k then
      if e.refs = 0 then (rest, some e)
      else ((i, { e with inTable := false }) :: rest, none)
    else
      let r := detachFirst k rest
      ((i, e) :: r.1, r.2)

/-- Find the first in-table entry bound to key `k` and increment its
reference count (the `Lookup` hit path, spec section 4.1). Returns the
new list and, on a hit, the handle identity, the old reference count
and the charge. -/
def lookupInEntries (k : Key) :
    List (Nat × Entry) → List (Nat × Entry) × Option (Nat × Nat × Nat)
  | [] => ([], none)
  | (i, e) :: rest =>
    if e.inTable = true ∧ e.key = k then
      ((i, { e with refs := e.refs + 1 }) :: rest, some (i, e.refs, e.charge))
    else
      let r := lookupInEntries k rest
      ((i, e) :: r.1, r.2)

/-- Increment the reference count of the entry with handle identity
`id` (the `Ref` operation, spec section 4.1). Returns the new list
and, when the entry is live, its old reference count and charge. -/
def refInEntries (id : Nat) :
    List (Nat × Entry) → List (Nat × Entry) × Option (Nat × Nat)
  | [] => ([], none)
  | (i, e) :: rest =>
    if i = id then
      ((i, { e with refs := e.refs + 1 }) :: rest, some (e.refs, e.charge))
    else
      let r := refInEntries id rest
      ((i, e) :: r.1, r.2)

/-- Decrement the reference count of the entry with handle identity
`id` (the `Release` operation, spec section 4.1): if the count reaches
zero and either `erase_if_last_ref` is set or the entry is already
detached from the table, the entry is destroyed; otherwise it stays,
unreferenced. A release of an entry whose count is already zero is a
precondition violation, modelled as a no-op. The outcome on a found
entry is its old reference count, its charge, and, when the entry was
destroyed, the object pointer handed to destruction. -/
def releaseInEntries (id : Nat) (elr : Bool) :
    List (Nat × Entry) →
      List (Nat × Entry) × Option (Nat × Nat × Option ObjectPtr)
  | [] => ([], none)
  | (i, e) :: rest =>
    if i = id then
      if e.refs = 0 then ((i, e) :: rest, none)
      else if e.refs - 1 = 0 ∧ (elr = true ∨ e.inTable = false) then
        (rest, some (e.refs, e.charge, some e.obj))
      else
        ((i, { e with refs := e.refs - 1 }) :: rest,
          some (e.refs, e.charge, none))
    else
      let r := releaseInEntries id elr rest
      ((i, e) :: r.1, r.2)

namespace CacheState

/-- Modelled from the spec: `Insert(key, object, helper, charge,
priority)` of the concrete cache core (spec section 4.1): account the
new charge, evict unreferenced entries while over capacity; if the
strict capacity limit is set and usage would still exceed capacity,
fail with the capacity error and leave the rejected object with the
caller; otherwise replace any existing binding of the key and add the
new entry, referenced once when a handle is requested. -/
def insert (s : CacheState) (k : Key) (obj : ObjectPtr)
    (helper : CacheItemHelper) (charge : Nat) (wantHandle : Bool)
    (prio : Priority) : Status × Option HandleId × CacheState :=
  let s1 := evictLoop s.entries.length charge s
  if s1.strict = true ∧ s1.capacity < s1.usage + charge then
    (Status.memoryLimit, none, s1)
  else
    let r := detachFirst k s1.entries
    let s2 : CacheState :=
      match r.2 with
      | some d =>
        { s1 with
          entries := r.1
          usage := s1.usage - d.charge
          destroyedLog := s1.destroyedLog ++ [d.obj] }
      | none => { s1 with entries := r.1 }
    let e : Entry :=
      ⟨k, obj, charge, if wantHandle then 1 else 0, true, prio, helper⟩
    let s3 : CacheState :=
      { s2 with
        entries := s2.entries ++ [(s2.nextId, e)]
        nextId := s2.nextId + 1
        usage := s2.usage + charge
        pinned := s2.pinned + (if wantHandle then charge else 0) }
    (Status.ok, if wantHandle then some s2.nextId else none, s3)

/-- Modelled from the spec: `Lookup(key)` on the primary table (spec
section 4.1): on a hit, increment the entry's reference count, adjust
pinned usage when the count was zero, and return a handle; on a miss
with no secondary tier, return no handle. -/
def lookup (s : CacheState) (k : Key) : Option HandleId × CacheState :=
  let r := lookupInEntries k s.entries
  match r.2 with
  | some (id, oldRefs, charge) =>
    (some id,
      { s with
        entries := r.1
        pinned := s.pinned + (if oldRefs = 0 then charge else 0) })
  | none => (none, s)

/-- Modelled from the spec: `Ref(handle)` (spec section 4.1):
increment the reference count if the entry is still live. -/
def refOp (s : CacheState) (id : HandleId) : Bool × CacheState :=
  let r := refInEntries id s.entries
  match r.2 with
  | some (oldRefs, charge) =>
    (true,
      { s with
        entries := r.1
        pinned := s.pinned + (if oldRefs = 0 then charge else 0) })
  | none => (false, s)

/-- Modelled from the spec: the two-argument
`Release(handle, erase_if_last_ref)` (spec section 4.1): decrement the
reference count; destroy the entry when the count reaches zero and
either `erase_if_last_ref` is set or the entry is already detached.
Returns whether the entry was destroyed. -/
def release (s : CacheState) (id : HandleId) (elr : Bool) :
    Bool × CacheState :=
  let r := releaseInEntries id elr s.entries
  match r.2 with
  | some (oldRefs, charge, removedObj) =>
    let s1 : CacheState :=
      { s with
        entries := r.1
        pinned := s.pinned - (if oldRefs = 1 then charge else 0) }
    match removedObj with
    | some obj =>
      (true,
        { s1 with
          usage := s1.usage - charge
          destroyedLog := s1.destroyedLog ++ [obj] })
    | none => (false, s1)
  | none => (false, s)

/-- Modelled from the spec: `Erase(key)` (spec section 4.1): remove
the table binding immediately; the entry is destroyed only if its
reference count is zero, otherwise destruction is deferred to the last
release. -/
def eraseOp (s : CacheState) (k : Key) : CacheState :=
  let r := detachFirst k s.entries
  match r.2 with
  | some d =>
    { s with
      entries := r.1
      usage := s.usage - d.charge
      destroyedLog := s.destroyedLog ++ [d.obj] }
  | none => { s with entries := r.1 }

/-- `GetUsage()`: the maintained usage counter. -/
def getUsage (s : CacheState) : Nat := s.usage

/-- `GetPinnedUsage()`: the maintained pinned-usage counter. -/
def getPinnedUsage (s : CacheState) : Nat := s.pinned

end CacheState

/-- An operation of the sequences claim C9 quantifies over: `Insert`,
`Lookup`, `Ref`, `Release` (two-argument form), `Erase`. -/
inductive CacheOp where
  | insert (k : Key) (obj : ObjectPtr) (helper : CacheItemHelper)
      (charge : Nat) (wantHandle : Bool) (prio : Priority)
  | lookup (k : Key)
  | ref (id : HandleId)
  | release (id : HandleId) (elr : Bool)
  | erase (k : Key)

/-- Apply one operation to the cache state, discarding its result. -/
def runOp (s : CacheState) : CacheOp → CacheState
  | CacheOp.insert k obj helper charge wantHandle prio =>
    (s.insert k obj helper charge wantHandle prio).2.2
  | CacheOp.lookup k => (s.lookup k).2
  | CacheOp.ref id => (s.refOp id).2
  | CacheOp.release id elr => (s.release id elr).2
  | CacheOp.erase k => s.eraseOp k

/-- Apply a finite sequence of operations, left to right. -/
def runOps (s : CacheState) (ops : List CacheOp) : CacheState :=
  ops.foldl runOp s

/-- The empty cache with the given capacity and strict flag. -/
def initState (cap : Nat) (strict : Bool) : CacheState :=
  ⟨[], 0, cap, strict, 0, 0, []⟩

/-- The accounting invariant of claim C9: the maintained usage counter
equals the sum of the charges of the entries held by the cache, and
the maintained pinned-usage counter equals the sum of the charges of
the entries with a nonzero reference count. -/
def AccountingInv (s : CacheState) : Prop :=
  s.usage = sumCharges s.entries ∧ s.pinned = pinnedCharges s.entries

/-- A sample secondary-compatible helper, built with the
secondary-support constructor over a non-secondary variant of the same
role and deleter. -/
def sampleSecondaryHelper : CacheItemHelper :=
  CacheItemHelper.withSecondary CacheEntryRole.kDataBlock (some 1)
    (some 2) (some 3) (some 4)
    (CacheItemHelper.forRoleDel CacheEntryRole.kDataBlock (some 1))

/-- A sample entry that is pinned (referenced once) and in the
table. -/
def pinnedEntry : Entry :=
  ⟨[1], some 5, 10, 1, true, Priority.LOW, kNoopCacheItemHelper⟩

/-- A strict cache of capacity 10 whose usage is already 10 and whose
single resident entry is referenced, so nothing is evictable. -/
def fullPinnedState : CacheState :=
  ⟨[(0, pinnedEntry)], 1, 10, true, 10, 10, []⟩

end RocksDB

namespace RocksDB

/-- Claim C2: for every `CacheItemHelper` satisfying the
construction-time invariant on its three secondary-cache callbacks,
`IsSecondaryCacheCompatible()` returns true if and only if `size_cb`,
`saveto_cb` and `create_cb` are all non-null, and it returns false if
and only if `size_cb` is null — so "helper with no secondary support"
and "`size_cb == nullptr`" coincide. -/
theorem isSecondaryCacheCompatible_iff_all_callbacks
    (h : CacheItemHelper) (hc : h.secondaryCallbacksConsistent) :
    (h.IsSecondaryCacheCompatible = true ↔
      (h.size_cb.isSome = true ∧ h.saveto_cb.isSome = true ∧
        h.create_cb.isSome = true)) ∧
    (h.IsSecondaryCacheCompatible = false ↔ h.size_cb = none) := by
  obtain ⟨h1, h2⟩ := hc
  constructor
  · constructor
    · intro hs
      have hsz : h.size_cb.isSome = true := hs
      exact ⟨hsz, h1 ▸ hsz, h2 ▸ hsz⟩
    · intro hs
      exact hs.1
  · constructor
    · intro hs
      have hsz : h.size_cb.isSome = false := hs
      cases hval : h.size_cb with
      | none => rfl
      | some v => rw [hval] at hsz; simp at hsz
    · intro hs
      show h.size_cb.isSome = false
      rw [hs]
      rfl

/-- Claim C2, witness: the sample secondary-compatible helper
satisfies the construction-time invariant and the characterization. -/
theorem isSecondaryCacheCompatible_iff_all_callbacks_witness :
    sampleSecondaryHelper.secondaryCallbacksConsistent ∧
    ((sampleSecondaryHelper.IsSecondaryCacheCompatible = true ↔
      (sampleSecondaryHelper.size_cb.isSome = true ∧
        sampleSecondaryHelper.saveto_cb.isSome = true ∧
        sampleSecondaryHelper.create_cb.isSome = true)) ∧
     (sampleSecondaryHelper.IsSecondaryCacheCompatible = false ↔
       sampleSecondaryHelper.size_cb = none)) :=
  ⟨by decide,
    isSecondaryCacheCompatible_iff_all_callbacks sampleSecondaryHelper
      (by decide)⟩

/-- Claim C3: every `CacheItemHelper` built with the non-secondary
constructor has itself as `without_secondary_compat`, null `size_cb`,
`saveto_cb` and `create_cb`, is not secondary-cache compatible, and
satisfies every construction-time assertion of the delegated
constructor — the assertion branch is unreachable on this path. -/
theorem forRoleDel_ctor_asserts (r : CacheEntryRole) (d : FunPtr) :
    (CacheItemHelper.forRoleDel r d).withoutSecondaryCompat
      = CacheItemHelper.forRoleDel r d ∧
    (CacheItemHelper.forRoleDel r d).size_cb = none ∧
    (CacheItemHelper.forRoleDel r d).saveto_cb = none ∧
    (CacheItemHelper.forRoleDel r d).create_cb = none ∧
    (CacheItemHelper.forRoleDel r d).IsSecondaryCacheCompatible = false ∧
    (CacheItemHelper.forRoleDel r d).ctorAssertsHold :=
  ⟨rfl, rfl, rfl, rfl, rfl, rfl, rfl, rfl, rfl, rfl⟩

/-- Claim C10: the default-constructed `CacheItemHelper` has role
`kMisc`, null `del_cb`, `size_cb`, `saveto_cb` and `create_cb`, itself
as `without_secondary_compat`, and is not secondary-cache compatible;
`kNoopCacheItemHelper` is exactly this helper. -/
theorem defaultCtor_noop_helper :
    CacheItemHelper.defaultCtor.role = CacheEntryRole.kMisc ∧
    CacheItemHelper.defaultCtor.del_cb = none ∧
    CacheItemHelper.defaultCtor.size_cb = none ∧
    CacheItemHelper.defaultCtor.saveto_cb = none ∧
    CacheItemHelper.defaultCtor.create_cb = none ∧
    CacheItemHelper.defaultCtor.withoutSecondaryCompat
      = CacheItemHelper.defaultCtor ∧
    CacheItemHelper.defaultCtor.IsSecondaryCacheCompatible = false ∧
    kNoopCacheItemHelper = CacheItemHelper.defaultCtor :=
  ⟨rfl, rfl, rfl, rfl, rfl, rfl, rfl, rfl⟩

/-- Claim C4: the default three-argument
`Release(handle, useful, erase_if_last_ref)` does not depend on the
`useful` flag — the result and the state are the same for
`useful = true` and `useful = false`, and both equal the two-argument
`Release(handle, erase_if_last_ref)` it forwards to. -/
theorem defaultReleaseWithUseful_ignores_useful (σ : Type)
    (release2 : σ → HandleId → Bool → Bool × σ) (s : σ) (h : HandleId)
    (elr : Bool) :
    cacheDefaultReleaseWithUseful release2 s h true elr
      = cacheDefaultReleaseWithUseful release2 s h false elr ∧
    ∀ useful : Bool,
      cacheDefaultReleaseWithUseful release2 s h useful elr
        = release2 s h elr :=
  ⟨rfl, fun _ => rfl⟩

/-- Claim C5: the default `Wait(handle)` and `WaitAll(handles)` of the
base `Cache` (the only implementations when no secondary tier exists)
return immediately with the cache state — and hence every handle's
state — unchanged, for every handle and every vector of handles. -/
theorem defaultWait_waitAll_noop (σ : Type) (s : σ) (h : HandleId)
    (hs : List HandleId) :
    cacheDefaultWait s h = s ∧ cacheDefaultWaitAll s hs = s :=
  ⟨rfl, rfl⟩

/-- Claim C6: `IsReady(handle)` is true exactly for handles in the
`Present`, `Failed` or `PendingReady` state and false only for
`PendingNotReady`; and the default implementation (which can produce
no pending handles) returns true for every handle of every cache
state. -/
theorem isReady_state_classification :
    (∀ st : HandleState,
      isReadyOfState st = true ↔ st ≠ HandleState.pendingNotReady) ∧
    (∀ (σ : Type) (s : σ) (h : HandleId), cacheDefaultIsReady s h = true) := by
  constructor
  · intro st
    cases st <;> simp [isReadyOfState]
  · intro σ s h
    rfl

/-- Claim C7: the default (non-overridden) `GetOccupancyCount` returns
the "unsupported" sentinel `SIZE_MAX` and the default
`GetTableAddressCount` returns the "unsupported" sentinel 0, on every
cache state. -/
theorem default_occupancy_table_sentinels (σ : Type) (s : σ) :
    cacheDefaultGetOccupancyCount s = SIZE_MAX ∧
    cacheDefaultGetTableAddressCount s = 0 ∧
    SIZE_MAX = 2 ^ 64 - 1 :=
  ⟨rfl, rfl, rfl⟩

/-- Claim C1, evaluated at a failing input: a `CacheWrapper` over a
legal target implementation does NOT forward `GetOccupancyCount`,
`GetTableAddressCount`, `Wait`, `WaitAll`, `IsReady`, the
three-argument `Release`, or `DisownData`; on each of these the
wrapper executes the base-class default and disagrees with calling the
target directly, refuting byte-for-byte forwarding of every
operation. -/
theorem cacheWrapper_non_forwarding_at_target :
    (wrapCache occupancyTrackingTarget).getOccupancyCount 0 = SIZE_MAX ∧
    occupancyTrackingTarget.getOccupancyCount 0 = 42 ∧
    SIZE_MAX ≠ 42 ∧
    (wrapCache occupancyTrackingTarget).getTableAddressCount 0 = 0 ∧
    occupancyTrackingTarget.getTableAddressCount 0 = 256 ∧
    (wrapCache occupancyTrackingTarget).wait 0 7 = 0 ∧
    occupancyTrackingTarget.wait 0 7 = 1 ∧
    (wrapCache occupancyTrackingTarget).waitAll 0 [7, 8] = 0 ∧
    occupancyTrackingTarget.waitAll 0 [7, 8] = 2 ∧
    (wrapCache occupancyTrackingTarget).isReady 0 7 = true ∧
    occupancyTrackingTarget.isReady 0 7 = false ∧
    (wrapCache occupancyTrackingTarget).releaseWithUseful 0 7 true false
      = (false, 0) ∧
    occupancyTrackingTarget.releaseWithUseful 0 7 true false = (true, 0) ∧
    (wrapCache occupancyTrackingTarget).disownData 5 = 5 ∧
    occupancyTrackingTarget.disownData 5 = 0 := by
  refine ⟨rfl, rfl, ?_, rfl, rfl, rfl, rfl, rfl, rfl, rfl, rfl, rfl, rfl,
    rfl, rfl⟩
  decide

theorem sumCharges_cons (p : Nat × Entry) (rest : List (Nat × Entry)) :
    sumCharges (p :: rest) = p.2.charge + sumCharges rest := by
  simp [sumCharges]

theorem pinnedCharges_cons (p : Nat × Entry) (rest : List (Nat × Entry)) :
    pinnedCharges (p :: rest)
      = (if 0 < p.2.refs then p.2.charge else 0) + pinnedCharges rest := by
  simp [pinnedCharges]

theorem sumCharges_append (xs ys : List (Nat × Entry)) :
    sumCharges (xs ++ ys) = sumCharges xs + sumCharges ys := by
  simp [sumCharges]

theorem pinnedCharges_append (xs ys : List (Nat × Entry)) :
    pinnedCharges (xs ++ ys) = pinnedCharges xs + pinnedCharges ys := by
  simp [pinnedCharges]

theorem sumCharges_nil : sumCharges [] = 0 := rfl

theorem pinnedCharges_nil : pinnedCharges [] = 0 := rfl

theorem evictOne_eq_none_of_all_pinned (es : List (Nat × Entry))
    (h : ∀ p ∈ es, 0 < p.2.refs) : evictOne es = none := by
  induction es with
  | nil => rfl
  | cons p rest ih =>
    have hp : 0 < p.2.refs := h p (List.mem_cons_self p rest)
    have hrest : ∀ q ∈ rest, 0 < q.2.refs :=
      fun q hq => h q (List.mem_cons_of_mem p hq)
    have hneg : ¬(p.2.refs = 0 ∧ p.2.inTable = true) := by
      intro hc
      have := hc.1
      omega
    simp [evictOne, ih hrest, hneg]

theorem evictOne_sums (es : List (Nat × Entry)) (e : Entry)
    (es' : List (Nat × Entry)) (h : evictOne es = some (e, es')) :
    e.refs = 0 ∧ sumCharges es = e.charge + sumCharges es' ∧
      pinnedCharges es = pinnedCharges es' := by
  induction es generalizing e es' with
  | nil => simp [evictOne] at h
  | cons p rest ih =>
    by_cases hc : p.2.refs = 0 ∧ p.2.inTable = true
    · cases hev : evictOne rest with
      | some qr =>
        obtain ⟨q, rest'⟩ := qr
        by_cases hrank : evictableRank q.prio < evictableRank p.2.prio
        · have hred : evictOne (p :: rest) = some (q, p :: rest') := by
            simp [evictOne, hc.1, hc.2, hev, hrank]
          rw [hred] at h
          simp only [Option.some.injEq, Prod.mk.injEq] at h
          obtain ⟨rfl, rfl⟩ := h
          obtain ⟨hq0, hqs, hqp⟩ := ih _ _ hev
          refine ⟨hq0, ?_, ?_⟩
          · rw [sumCharges_cons, sumCharges_cons]
            omega
          · rw [pinnedCharges_cons, pinnedCharges_cons]
            omega
        · have hred : evictOne (p :: rest) = some (p.2, rest) := by
            simp [evictOne, hc.1, hc.2, hev, hrank]
          rw [hred] at h
          simp only [Option.some.injEq, Prod.mk.injEq] at h
          obtain ⟨rfl, rfl⟩ := h
          refine ⟨hc.1, ?_, ?_⟩
          · rw [sumCharges_cons]
          · rw [pinnedCharges_cons, hc.1]
            simp
      | none =>
        have hred : evictOne (p :: rest) = some (p.2, rest) := by
          simp [evictOne, hc.1, hc.2, hev]
        rw [hred] at h
        simp only [Option.some.injEq, Prod.mk.injEq] at h
        obtain ⟨rfl, rfl⟩ := h
        refine ⟨hc.1, ?_, ?_⟩
        · rw [sumCharges_cons]
        · rw [pinnedCharges_cons, hc.1]
          simp
    · cases hev : evictOne rest with
      | some qr =>
        obtain ⟨q, rest'⟩ := qr
        have hred : evictOne (p :: rest) = some (q, p :: rest') := by
          simp [evictOne, hc, hev]
        rw [hred] at h
        simp only [Option.some.injEq, Prod.mk.injEq] at h
        obtain ⟨rfl, rfl⟩ := h
        obtain ⟨hq0, hqs, hqp⟩ := ih _ _ hev
        refine ⟨hq0, ?_, ?_⟩
        · rw [sumCharges_cons, sumCharges_cons]
          omega
        · rw [pinnedCharges_cons, pinnedCharges_cons]
          omega
      | none =>
        have hred : evictOne (p :: rest) = none := by
          simp [evictOne, hc, hev]
        rw [hred] at h
        simp at h

theorem evictLoop_no_victim (fuel extra : Nat) (s : CacheState)
    (h : evictOne s.entries = none) : evictLoop fuel extra s = s := by
  cases fuel with
  | zero => rfl
  | succ n =>
    unfold evictLoop
    split
    · rfl
    · rw [h]

theorem detachFirst_none_sums (k : Key) (es : List (Nat × Entry))
    (h : (detachFirst k es).2 = none) :
    sumCharges (detachFirst k es).1 = sumCharges es ∧
    pinnedCharges (detachFirst k es).1 = pinnedCharges es := by
  induction es with
  | nil => simp [detachFirst]
  | cons p rest ih =>
    obtain ⟨i, e⟩ := p
    by_cases hk : e.inTable = true ∧ e.key = k
    · by_cases hr : e.refs = 0
      · have hred : detachFirst k ((i, e) :: rest) = (rest, some e) := by
          simp [detachFirst, hk.1, hk.2, hr]
        rw [hred] at h
        simp at h
      · have hred : detachFirst k ((i, e) :: rest)
            = ((i, { e with inTable := false }) :: rest, none) := by
          simp [detachFirst, hk.1, hk.2, hr]
        rw [hred]
        constructor
        · simp only [sumCharges_cons]
        · simp only [pinnedCharges_cons]
    · have hred : detachFirst k ((i, e) :: rest)
          = ((i, e) :: (detachFirst k rest).1, (detachFirst k rest).2) := by
        simp [detachFirst, hk]
      rw [hred] at h ⊢
      simp only at h
      obtain ⟨ih1, ih2⟩ := ih h
      constructor
      · simp only [sumCharges_cons]
        omega
      · simp only [pinnedCharges_cons]
        omega

theorem detachFirst_some_sums (k : Key) (es : List (Nat × Entry))
    (d : Entry) (h : (detachFirst k es).2 = some d) :
    d.refs = 0 ∧
    d.charge + sumCharges (detachFirst k es).1 = sumCharges es ∧
    pinnedCharges (detachFirst k es).1 = pinnedCharges es := by
  induction es with
  | nil => simp [detachFirst] at h
  | cons p rest ih =>
    obtain ⟨i, e⟩ := p
    by_cases hk : e.inTable = true ∧ e.key = k
    · by_cases hr : e.refs = 0
      · have hred : detachFirst k ((i, e) :: rest) = (rest, some e) := by
          simp [detachFirst, hk.1, hk.2, hr]
        rw [hred] at h ⊢
        simp only [Option.some.injEq] at h
        subst h
        refine ⟨hr, ?_, ?_⟩
        · simp only [sumCharges_cons]
        · simp only [pinnedCharges_cons, hr]
          simp
      · have hred : detachFirst k ((i, e) :: rest)
            = ((i, { e with inTable := false }) :: rest, none) := by
          simp [detachFirst, hk.1, hk.2, hr]
        rw [hred] at h
        simp at h
    · have hred : detachFirst k ((i, e) :: rest)
          = ((i, e) :: (detachFirst k rest).1, (detachFirst k rest).2) := by
        simp [detachFirst, hk]
      rw [hred] at h ⊢
      simp only at h
      obtain ⟨ih0, ih1, ih2⟩ := ih h
      refine ⟨ih0, ?_, ?_⟩
      · simp only [sumCharges_cons]
        omega
      · simp only [pinnedCharges_cons]
        omega

theorem lookupInEntries_none_list (k : Key) (es : List (Nat × Entry))
    (h : (lookupInEntries k es).2 = none) :
    (lookupInEntries k es).1 = es := by
  induction es with
  | nil => rfl
  | cons p rest ih =>
    obtain ⟨i, e⟩ := p
    by_cases hk : e.inTable = true ∧ e.key = k
    · have hred : lookupInEntries k ((i, e) :: rest)
          = ((i, { e with refs := e.refs + 1 }) :: rest,
             some (i, e.refs, e.charge)) := by
        simp [lookupInEntries, hk.1, hk.2]
      rw [hred] at h
      simp at h
    · have hred : lookupInEntries k ((i, e) :: rest)
          = ((i, e) :: (lookupInEntries k rest).1,
             (lookupInEntries k rest).2) := by
        simp [lookupInEntries, hk]
      rw [hred] at h ⊢
      simp only at h
      rw [ih h]

theorem lookupInEntries_some_sums (k : Key) (es : List (Nat × Entry))
    (id oldRefs charge : Nat)
    (h : (lookupInEntries k es).2 = some (id, oldRefs, charge)) :
    sumCharges (lookupInEntries k es).1 = sumCharges es ∧
    pinnedCharges (lookupInEntries k es).1
      = pinnedCharges es + (if oldRefs = 0 then charge else 0) := by
  induction es generalizing id oldRefs charge with
  | nil => simp [lookupInEntries] at h
  | cons p rest ih =>
    obtain ⟨i, e⟩ := p
    by_cases hk : e.inTable = true ∧ e.key = k
    · have hred : lookupInEntries k ((i, e) :: rest)
          = ((i, { e with refs := e.refs + 1 }) :: rest,
             some (i, e.refs, e.charge)) := by
        simp [lookupInEntries, hk.1, hk.2]
      rw [hred] at h ⊢
      simp only [Option.some.injEq, Prod.mk.injEq] at h
      obtain ⟨rfl, rfl, rfl⟩ := h
      constructor
      · simp only [sumCharges_cons]
      · simp only [pinnedCharges_cons]
        by_cases h0 : e.refs = 0
        · simp [h0]
          omega
        · have h1 : 0 < e.refs := Nat.pos_of_ne_zero h0
          simp [h0, h1]
    · have hred : lookupInEntries k ((i, e) :: rest)
          = ((i, e) :: (lookupInEntries k rest).1,
             (lookupInEntries k rest).2) := by
        simp [lookupInEntries, hk]
      rw [hred] at h ⊢
      simp only at h
      obtain ⟨ih1, ih2⟩ := ih _ _ _ h
      constructor
      · simp only [sumCharges_cons]
        omega
      · simp only [pinnedCharges_cons]
        omega

theorem refInEntries_none_list (id : Nat) (es : List (Nat × Entry))
    (h : (refInEntries id es).2 = none) :
    (refInEntries id es).1 = es := by
  induction es with
  | nil => rfl
  | cons p rest ih =>
    obtain ⟨i, e⟩ := p
    by_cases hi : i = id
    · have hred : refInEntries id ((i, e) :: rest)
          = ((i, { e with refs := e.refs + 1 }) :: rest,
             some (e.refs, e.charge)) := by
        simp [refInEntries, hi]
      rw [hred] at h
      simp at h
    · have hred : refInEntries id ((i, e) :: rest)
          = ((i, e) :: (refInEntries id rest).1, (refInEntries id rest).2) := by
        simp [refInEntries, hi]
      rw [hred] at h ⊢
      simp only at h
      rw [ih h]

theorem refInEntries_some_sums (id : Nat) (es : List (Nat × Entry))
    (oldRefs charge : Nat)
    (h : (refInEntries id es).2 = some (oldRefs, charge)) :
    sumCharges (refInEntries id es).1 = sumCharges es ∧
    pinnedCharges (refInEntries id es).1
      = pinnedCharges es + (if oldRefs = 0 then charge else 0) := by
  induction es generalizing oldRefs charge with
  | nil => simp [refInEntries] at h
  | cons p rest ih =>
    obtain ⟨i, e⟩ := p
    by_cases hi : i = id
    · have hred : refInEntries id ((i, e) :: rest)
          = ((i, { e with refs := e.refs + 1 }) :: rest,
             some (e.refs, e.charge)) := by
        simp [refInEntries, hi]
      rw [hred] at h ⊢
      simp only [Option.some.injEq, Prod.mk.injEq] at h
      obtain ⟨rfl, rfl⟩ := h
      constructor
      · simp only [sumCharges_cons]
      · simp only [pinnedCharges_cons]
        by_cases h0 : e.refs = 0
        · simp [h0]
          omega
        · have h1 : 0 < e.refs := Nat.pos_of_ne_zero h0
          simp [h0, h1]
    · have hred : refInEntries id ((i, e) :: rest)
          = ((i, e) :: (refInEntries id rest).1, (refInEntries id rest).2) := by
        simp [refInEntries, hi]
      rw [hred] at h ⊢
      simp only at h
      obtain ⟨ih1, ih2⟩ := ih _ _ h
      constructor
      · simp only [sumCharges_cons]
        omega
      · simp only [pinnedCharges_cons]
        omega

theorem releaseInEntries_none_list (id : Nat) (elr : Bool)
    (es : List (Nat × Entry)) (h : (releaseInEntries id elr es).2 = none) :
    (releaseInEntries id elr es).1 = es := by
  induction es with
  | nil => rfl
  | cons p rest ih =>
    obtain ⟨i, e⟩ := p
    by_cases hi : i = id
    · by_cases hr : e.refs = 0
      · have hred : releaseInEntries id elr ((i, e) :: rest)
            = ((i, e) :: rest, none) := by
          simp [releaseInEntries, hi, hr]
        rw [hred]
      · by_cases hd : e.refs - 1 = 0 ∧ (elr = true ∨ e.inTable = false)
        · have hred : releaseInEntries id elr ((i, e) :: rest)
              = (rest, some (e.refs, e.charge, some e.obj)) := by
            simp [releaseInEntries, hi, hr, hd]
          rw [hred] at h
          simp at h
        · have hred : releaseInEntries id elr ((i, e) :: rest)
              = ((i, { e with refs := e.refs - 1 }) :: rest,
                 some (e.refs, e.charge, none)) := by
            simp [releaseInEntries, hi, hr, hd]
          rw [hred] at h
          simp at h
    · have hred : releaseInEntries id elr ((i, e) :: rest)
          = ((i, e) :: (releaseInEntries id elr rest).1,
             (releaseInEntries id elr rest).2) := by
        simp [releaseInEntries, hi]
      rw [hred] at h ⊢
      simp only at h
      rw [ih h]

theorem releaseInEntries_some_sums (id : Nat) (elr : Bool)
    (es : List (Nat × Entry)) (oldRefs charge : Nat)
    (removedObj : Option ObjectPtr)
    (h : (releaseInEntries id elr es).2 = some (oldRefs, charge, removedObj)) :
    0 < oldRefs ∧
    sumCharges es = sumCharges (releaseInEntries id elr es).1
      + (if removedObj.isSome = true then charge else 0) ∧
    pinnedCharges es = pinnedCharges (releaseInEntries id elr es).1
      + (if oldRefs = 1 then charge else 0) := by
  induction es generalizing oldRefs charge removedObj with
  | nil => simp [releaseInEntries] at h
  | cons p rest ih =>
    obtain ⟨i, e⟩ := p
    by_cases hi : i = id
    · by_cases hr : e.refs = 0
      · have hred : releaseInEntries id elr ((i, e) :: rest)
            = ((i, e) :: rest, none) := by
          simp [releaseInEntries, hi, hr]
        rw [hred] at h
        simp at h
      · by_cases hd : e.refs - 1 = 0 ∧ (elr = true ∨ e.inTable = false)
        · have hred : releaseInEntries id elr ((i, e) :: rest)
              = (rest, some (e.refs, e.charge, some e.obj)) := by
            simp [releaseInEntries, hi, hr, hd]
          rw [hred] at h ⊢
          simp only [Option.some.injEq, Prod.mk.injEq] at h
          obtain ⟨rfl, rfl, rfl⟩ := h
          have h1 : e.refs = 1 := by
            have := hd.1
            omega
          refine ⟨by omega, ?_, ?_⟩
          · simp only [sumCharges_cons]
            simp
            omega
          · simp only [pinnedCharges_cons]
            simp [h1]
            omega
        · have hred : releaseInEntries id elr ((i, e) :: rest)
              = ((i, { e with refs := e.refs - 1 }) :: rest,
                 some (e.refs, e.charge, none)) := by
            simp [releaseInEntries, hi, hr, hd]
          rw [hred] at h ⊢
          simp only [Option.some.injEq, Prod.mk.injEq] at h
          obtain ⟨rfl, rfl, rfl⟩ := h
          have h3 : 0 < e.refs := Nat.pos_of_ne_zero hr
          refine ⟨h3, ?_, ?_⟩
          · simp only [sumCharges_cons]
            simp
          · simp only [pinnedCharges_cons]
            by_cases h1 : e.refs = 1
            · simp [h1]
              omega
            · have h4 : 0 < e.refs - 1 := by omega
              simp [h1, h3, h4]
    · have hred : releaseInEntries id elr ((i, e) :: rest)
          = ((i, e) :: (releaseInEntries id elr rest).1,
             (releaseInEntries id elr rest).2) := by
        simp [releaseInEntries, hi]
      rw [hred] at h ⊢
      simp only at h
      obtain ⟨ih0, ih1, ih2⟩ := ih _ _ _ h
      refine ⟨ih0, ?_, ?_⟩
      · simp only [sumCharges_cons]
        omega
      · simp only [pinnedCharges_cons]
        omega

theorem evictLoop_inv (fuel extra : Nat) (s : CacheState)
    (h : AccountingInv s) : AccountingInv (evictLoop fuel extra s) := by
  induction fuel generalizing s with
  | zero => exact h
  | succ n ih =>
    unfold evictLoop
    split
    · exact h
    · cases hev : evictOne s.entries with
      | none => exact h
      | some p =>
        obtain ⟨e, es'⟩ := p
        obtain ⟨h0, hs, hp⟩ := evictOne_sums s.entries e es' hev
        apply ih
        constructor
        · show s.usage - e.charge = sumCharges es'
          have h1 := h.1
          omega
        · show s.pinned = pinnedCharges es'
          have h2 := h.2
          omega

theorem insert_preserves_inv (s : CacheState) (k : Key) (obj : ObjectPtr)
    (helper : CacheItemHelper) (charge : Nat) (wantHandle : Bool)
    (prio : Priority) (h : AccountingInv s) :
    AccountingInv (s.insert k obj helper charge wantHandle prio).2.2 := by
  have h1 : AccountingInv (evictLoop s.entries.length charge s) :=
    evictLoop_inv _ _ _ h
  simp only [CacheState.insert]
  set s1 := evictLoop s.entries.length charge s with hs1
  split
  · exact h1
  · cases hd : (detachFirst k s1.entries).2 with
    | some d =>
      obtain ⟨hd0, hdsum, hdpin⟩ := detachFirst_some_sums k s1.entries d hd
      have hu := h1.1
      have hp := h1.2
      cases wantHandle with
      | true =>
        constructor
        · simp only [sumCharges_append, sumCharges_cons, sumCharges_nil]
          omega
        · simp only [pinnedCharges_append, pinnedCharges_cons,
            pinnedCharges_nil]
          simp
          omega
      | false =>
        constructor
        · simp only [sumCharges_append, sumCharges_cons, sumCharges_nil]
          omega
        · simp only [pinnedCharges_append, pinnedCharges_cons,
            pinnedCharges_nil]
          simp
          omega
    | none =>
      obtain ⟨hdsum, hdpin⟩ := detachFirst_none_sums k s1.entries hd
      have hu := h1.1
      have hp := h1.2
      cases wantHandle with
      | true =>
        constructor
        · simp only [sumCharges_append, sumCharges_cons, sumCharges_nil]
          omega
        · simp only [pinnedCharges_append, pinnedCharges_cons,
            pinnedCharges_nil]
          simp
          omega
      | false =>
        constructor
        · simp only [sumCharges_append, sumCharges_cons, sumCharges_nil]
          omega
        · simp only [pinnedCharges_append, pinnedCharges_cons,
            pinnedCharges_nil]
          simp
          omega

theorem lookup_preserves_inv (s : CacheState) (k : Key)
    (h : AccountingInv s) : AccountingInv (s.lookup k).2 := by
  simp only [CacheState.lookup]
  cases hl : (lookupInEntries k s.entries).2 with
  | some t =>
    obtain ⟨id, oldRefs, charge⟩ := t
    obtain ⟨hsum, hpin⟩ := lookupInEntries_some_sums k s.entries id oldRefs
      charge hl
    have hu := h.1
    have hp := h.2
    constructor
    · exact hu.trans hsum.symm
    · show s.pinned + (if oldRefs = 0 then charge else 0)
        = pinnedCharges (lookupInEntries k s.entries).1
      omega
  | none => exact h

theorem refOp_preserves_inv (s : CacheState) (id : HandleId)
    (h : AccountingInv s) : AccountingInv (s.refOp id).2 := by
  simp only [CacheState.refOp]
  cases hl : (refInEntries id s.entries).2 with
  | some t =>
    obtain ⟨oldRefs, charge⟩ := t
    obtain ⟨hsum, hpin⟩ := refInEntries_some_sums id s.entries oldRefs
      charge hl
    have hu := h.1
    have hp := h.2
    constructor
    · exact hu.trans hsum.symm
    · show s.pinned + (if oldRefs = 0 then charge else 0)
        = pinnedCharges (refInEntries id s.entries).1
      omega
  | none => exact h

theorem release_preserves_inv (s : CacheState) (id : HandleId) (elr : Bool)
    (h : AccountingInv s) : AccountingInv (s.release id elr).2 := by
  simp only [CacheState.release]
  cases hl : (releaseInEntries id elr s.entries).2 with
  | some t =>
    obtain ⟨oldRefs, charge, removedObj⟩ := t
    obtain ⟨h0, hsum, hpin⟩ := releaseInEntries_some_sums id elr s.entries
      oldRefs charge removedObj hl
    have hu := h.1
    have hp := h.2
    cases removedObj with
    | some obj =>
      simp at hsum
      constructor
      · show s.usage - charge
          = sumCharges (releaseInEntries id elr s.entries).1
        omega
      · show s.pinned - (if oldRefs = 1 then charge else 0)
          = pinnedCharges (releaseInEntries id elr s.entries).1
        omega
    | none =>
      simp at hsum
      constructor
      · show s.usage = sumCharges (releaseInEntries id elr s.entries).1
        omega
      · show s.pinned - (if oldRefs = 1 then charge else 0)
          = pinnedCharges (releaseInEntries id elr s.entries).1
        omega
  | none => exact h

theorem eraseOp_preserves_inv (s : CacheState) (k : Key)
    (h : AccountingInv s) : AccountingInv (s.eraseOp k) := by
  simp only [CacheState.eraseOp]
  cases hd : (detachFirst k s.entries).2 with
  | some d =>
    obtain ⟨hd0, hdsum, hdpin⟩ := detachFirst_some_sums k s.entries d hd
    have hu := h.1
    have hp := h.2
    constructor
    · show s.usage - d.charge = sumCharges (detachFirst k s.entries).1
      omega
    · show s.pinned = pinnedCharges (detachFirst k s.entries).1
      omega
  | none =>
    obtain ⟨hdsum, hdpin⟩ := detachFirst_none_sums k s.entries hd
    have hu := h.1
    have hp := h.2
    constructor
    · show s.usage = sumCharges (detachFirst k s.entries).1
      omega
    · show s.pinned = pinnedCharges (detachFirst k s.entries).1
      omega

theorem runOp_preserves_inv (s : CacheState) (op : CacheOp)
    (h : AccountingInv s) : AccountingInv (runOp s op) := by
  cases op with
  | insert k obj helper charge wantHandle prio =>
    exact insert_preserves_inv s k obj helper charge wantHandle prio h
  | lookup k => exact lookup_preserves_inv s k h
  | ref id => exact refOp_preserves_inv s id h
  | release id elr => exact release_preserves_inv s id elr h
  | erase k => exact eraseOp_preserves_inv s k h

theorem runOps_preserves_inv (ops : List CacheOp) (s : CacheState)
    (h : AccountingInv s) : AccountingInv (runOps s ops) := by
  induction ops generalizing s with
  | nil => exact h
  | cons op rest ih => exact ih (runOp s op) (runOp_preserves_inv s op h)

/-- Claim C9: after every finite sequence of `Insert`, `Lookup`, `Ref`,
`Release` and `Erase` operations from the empty cache, `GetUsage()`
equals the sum of the charges of the entries currently resident (held
by the cache, in table or pending deferred destruction), and
`GetPinnedUsage()` equals the sum of the charges of the resident
entries whose reference count is nonzero. -/
theorem getUsage_getPinnedUsage_accounting (cap : Nat) (strict : Bool)
    (ops : List CacheOp) :
    (runOps (initState cap strict) ops).getUsage
      = sumCharges (runOps (initState cap strict) ops).entries ∧
    (runOps (initState cap strict) ops).getPinnedUsage
      = pinnedCharges (runOps (initState cap strict) ops).entries :=
  runOps_preserves_inv ops (initState cap strict) ⟨rfl, rfl⟩

/-- Claim C8: on a cache with the strict capacity limit set, usage
already at capacity, and every resident entry referenced (so nothing
is evictable), `Insert` of any entry with positive charge fails with
the capacity error `Status::MemoryLimit`, returns no handle, and
leaves the cache state — in particular `GetUsage()` and the log of
destroyed objects — completely unchanged: the rejected object is not
cleaned up and stays with the caller. -/
theorem insert_strict_full_all_pinned (s : CacheState) (k : Key)
    (obj : ObjectPtr) (helper : CacheItemHelper) (charge : Nat)
    (wantHandle : Bool) (prio : Priority)
    (hstrict : s.strict = true) (hfull : s.usage = s.capacity)
    (hpos : 0 < charge)
    (hpinned : ∀ p ∈ s.entries, 0 < p.2.refs) :
    s.insert k obj helper charge wantHandle prio
      = (Status.memoryLimit, none, s) ∧
    (s.insert k obj helper charge wantHandle prio).2.2.getUsage
      = s.getUsage ∧
    (s.insert k obj helper charge wantHandle prio).2.2.destroyedLog
      = s.destroyedLog := by
  have hev : evictOne s.entries = none :=
    evictOne_eq_none_of_all_pinned s.entries hpinned
  have hloop : evictLoop s.entries.length charge s = s :=
    evictLoop_no_victim s.entries.length charge s hev
  have hcap : s.capacity < s.usage + charge := by omega
  have hmain : s.insert k obj helper charge wantHandle prio
      = (Status.memoryLimit, none, s) := by
    simp only [CacheState.insert, hloop]
    rw [if_pos ⟨hstrict, hcap⟩]
  exact ⟨hmain, by rw [hmain], by rw [hmain]⟩

/-- Claim C8, witness: the concrete strict cache of capacity 10, full
with one referenced entry of charge 10, rejects an insert of charge 5
and is left unchanged. -/
theorem insert_strict_full_all_pinned_witness :
    (fullPinnedState.strict = true ∧
     fullPinnedState.usage = fullPinnedState.capacity ∧
     0 < 5 ∧
     ∀ p ∈ fullPinnedState.entries, 0 < p.2.refs) ∧
    (fullPinnedState.insert [2] (some 6) kNoopCacheItemHelper 5 true
        Priority.LOW
      = (Status.memoryLimit, none, fullPinnedState) ∧
     (fullPinnedState.insert [2] (some 6) kNoopCacheItemHelper 5 true
        Priority.LOW).2.2.getUsage = fullPinnedState.getUsage ∧
     (fullPinnedState.insert [2] (some 6) kNoopCacheItemHelper 5 true
        Priority.LOW).2.2.destroyedLog = fullPinnedState.destroyedLog) :=
  ⟨⟨rfl, rfl, by decide, by decide⟩,
    insert_strict_full_all_pinned fullPinnedState [2] (some 6)
      kNoopCacheItemHelper 5 true Priority.LOW rfl rfl (by decide)
      (by decide)⟩

end RocksDB
